import Mathlib

/-!
Shallow embedding of `src/scheduler.rs` from tagtime-rs: the TagTime
universal ping algorithm (a zero-increment linear congruence generator
driven by a threshold scan over 100 ms ticks).

Modelling conventions:
* `rug::Integer` is modelled as `Int`.  rug's binary `%` and `/` truncate
  toward zero, so they are `Int.tmod` / `Int.tdiv`; `Integer::pow_mod`
  (GMP `mpz_powm`) returns the least nonnegative representative, which is
  Lean's Euclidean `%` on `Int`.
* `DateTime<Utc>` is modelled by its epoch timestamp in milliseconds: every
  time value the program manipulates is produced by `Utc.timestamp_millis`,
  so millisecond resolution is exact.
* The scan loop in `State::next_time` need not terminate, so the embedding
  takes a fuel parameter; `none` means the loop did not finish within
  `fuel` iterations.
-/

/-- Embeds `struct LCG`: a linear congruence generator whose increment is 0. -/
structure LCG where
  multiplier : Int
  modulus : Int
  state : Int
deriving DecidableEq

namespace LCG

/-- Embeds `LCG::pow`: `state := (multiplier.pow_mod(exp, modulus) * state) % modulus`.
`pow_mod` yields the least nonnegative representative (Euclidean `%`),
while rug's `%` truncates toward zero (`Int.tmod`).  The Rust exponent is a
`rug::Integer`; every call site passes a nonnegative value, so it is a `Nat`. -/
def pow (l : LCG) (exp : Nat) : LCG :=
  { l with state := ((l.multiplier ^ exp % l.modulus) * l.state).tmod l.modulus }

/-- Embeds `LCG::next`: advance a single step. -/
def next (l : LCG) : LCG := l.pow 1

end LCG

/-- Constant `IA`. -/
def IA : Int := 3125
/-- Constant `IM`. -/
def IM : Int := 34359738337
/-- Constant `GAP`. -/
def GAP : Int := 45 * 60
/-- Constant `SEED`. -/
def SEED : Int := 20180809

/-- Embeds `impl Default for LCG`. -/
def LCG.default : LCG := ⟨IA, IM, SEED⟩

/-- Embeds `struct State`: the ping scheduler.  `time` is epoch milliseconds. -/
structure State where
  time : Int
  gap : Int
  lcg : LCG
deriving DecidableEq

namespace State

/-- Embeds `State::new`. -/
def new (time : Int) (gap : Int) (lcg : LCG) : State := ⟨time, gap, lcg⟩

/-- Embeds `impl Default for State`: the wall clock `Utc::now()` is passed in. -/
def defaultAt (now : Int) : State := ⟨now, GAP, LCG.default⟩

/-- Embeds `State::from_millis`: default scheduler with `time` set to `n`. -/
def from_millis (n : Int) : State := { defaultAt 0 with time := n }

/-- The threshold computed in `next_time`:
`&self.lcg.modulus / (&self.gap * Integer::from(10))` (truncated division). -/
def threshold (modulus gap : Int) : Int := modulus.tdiv (gap * 10)

/-- The generator after the re-synchronizing jump in `next_time`:
`if cur_incs > prev_incs { self.lcg.pow(cur_incs - prev_incs) }`. -/
def jumped (s : State) (cur : Int) : LCG :=
  if s.time.tdiv 100 < cur.tdiv 100 then
    s.lcg.pow (cur.tdiv 100 - s.time.tdiv 100).toNat
  else s.lcg

/-- The `while { self.lcg.next(); &self.lcg.state } >= &threshold` loop of
`next_time`, with fuel.  Returns the final `new_incs` and generator. -/
def scanLoop (thr : Int) : Nat → Int → LCG → Option (Int × LCG)
  | 0, _, _ => none
  | fuel+1, newIncs, l =>
    let l2 := l.next
    if l2.state < thr then some (newIncs, l2)
    else scanLoop thr fuel (newIncs + 1) l2

/-- Embeds `State::next_time`. -/
def next_time (fuel : Nat) (s : State) (cur : Int) : Option State :=
  if s.time ≤ cur then
    match scanLoop (threshold s.lcg.modulus s.gap) fuel (cur.tdiv 100 + 1)
        (jumped s cur) with
    | some (newIncs, l2) => some { s with time := newIncs * 100, lcg := l2 }
    | none => none
  else some s

/-- Embeds `impl Iterator for State`: `next` calls `next_time(self.time)` and
yields the updated `self.time`. -/
def iterStep (fuel : Nat) (s : State) : Option (Int × State) :=
  (next_time fuel s s.time).map fun s2 => (s2.time, s2)

/-- The first `n` timestamps yielded by the iterator (epoch milliseconds). -/
def takeTimes (fuel : Nat) : Nat → State → Option (List Int)
  | 0, _ => some []
  | n+1, s =>
    match iterStep fuel s with
    | some (t, s2) => (takeTimes fuel n s2).map (fun ts => t :: ts)
    | none => none

/-- The first `n` yielded timestamps as tick indices
(`x.timestamp_millis() / 100`, truncated division as in the tests). -/
def takeTicks (fuel n : Nat) (s : State) : Option (List Int) :=
  (takeTimes fuel n s).map (List.map (fun t => t.tdiv 100))

end State

/-! ### A fast computational mirror of the scan loop

The kernel cannot reduce tens of thousands of nested `scanLoop` steps in one
go, so the long reference-vector computation is done on a bare-`Nat` mirror
of the loop, chained in bounded chunks, and transported to `scanLoop` by
`scanLoop_eq_scanNat` below. -/

/-- Strict application: brings a `Nat` into literal form before use. -/
def forceNat (n : Nat) (f : Nat → α) : α :=
  match n with
  | 0 => f 0
  | k+1 => f (k+1)

/-- Bare-`Nat` mirror of `State.scanLoop`.  `Sum.inl (fl, st)` means the
loop accepted with `fl` fuel left and generator state `st`; `Sum.inr st`
means the fuel ran out with the generator at `st`. -/
def scanNat (m M thr : Nat) (fuel : Nat) : Nat → (Nat × Nat) ⊕ Nat :=
  Nat.rec (fun st => .inr st)
    (fun fl ih st =>
      forceNat (m * st % M) fun st2 =>
        if st2 < thr then .inl (fl, st2)
        else ih st2) fuel

/-- The spec's closed form for the generator's deterministic value at tick
`t`: `multiplier^t * seed mod modulus`. -/
def valueAt (m M seed : Int) (t : Nat) : Int := m ^ t * seed % M

theorem forceNat_eq (n : Nat) (f : Nat → α) : forceNat n f = f n := by
  cases n <;> rfl

theorem scanNat_zero (m M thr st : Nat) : scanNat m M thr 0 st = .inr st := rfl

theorem scanNat_succ_raw (m M thr f st : Nat) :
    scanNat m M thr (f+1) st =
      forceNat (m * st % M) (fun st2 =>
        if st2 < thr then .inl (f, st2) else scanNat m M thr f st2) := rfl

theorem scanNat_succ (m M thr f st : Nat) :
    scanNat m M thr (f+1) st =
      (if m * st % M < thr then .inl (f, m * st % M)
       else scanNat m M thr f (m * st % M)) := by
  rw [scanNat_succ_raw, forceNat_eq]

/-- Splitting a `scanNat` run: the first `f1` units of fuel are consumed
first, then the remaining `f2`. -/
theorem scanNat_add (m M thr f2 : Nat) : ∀ (f1 st : Nat),
    scanNat m M thr (f2 + f1) st =
      match scanNat m M thr f1 st with
      | .inl (fl, st2) => .inl (f2 + fl, st2)
      | .inr st1 => scanNat m M thr f2 st1 := by
  intro f1
  induction f1 with
  | zero => intro st; rw [Nat.add_zero, scanNat_zero]
  | succ f ih =>
    intro st
    rw [show f2 + (f + 1) = (f2 + f) + 1 by omega, scanNat_succ, scanNat_succ]
    by_cases h : m * st % M < thr
    · rw [if_pos h, if_pos h]
    · rw [if_neg h, if_neg h, ih]


/-! ### Arithmetic facts about truncated remainder -/

theorem tmod_neg_left (a b : Int) : (-a).tmod b = -(a.tmod b) := by
  rw [Int.tmod_def, Int.tmod_def, Int.neg_tdiv]
  ring

theorem tmod_coe (a b : Nat) : ((a : Int)).tmod (b : Int) = ((a % b : Nat) : Int) := rfl

theorem tdiv_coe (a b : Nat) : ((a : Int)).tdiv (b : Int) = ((a / b : Nat) : Int) := rfl

/-- Multiplying a truncated remainder by a nonnegative factor commutes with
dropping the inner remainder, for positive modulus and nonnegative operand. -/
theorem mul_tmod_strip_nonneg (c X M : Int) (hc : 0 ≤ c) (hX : 0 ≤ X) (hM : 0 < M) :
    (c * X.tmod M).tmod M = (c * X).tmod M := by
  rw [Int.tmod_eq_emod hX hM.le]
  have h1 : 0 ≤ c * (X % M) := mul_nonneg hc (Int.emod_nonneg _ (by omega))
  have h2 : 0 ≤ c * X := mul_nonneg hc hX
  rw [Int.tmod_eq_emod h1 hM.le, Int.tmod_eq_emod h2 hM.le]
  conv_rhs => rw [Int.mul_emod]
  rw [Int.mul_emod c (X % M), Int.emod_emod]

/-- As above, with an operand of arbitrary sign. -/
theorem mul_tmod_strip (c X M : Int) (hc : 0 ≤ c) (hM : 0 < M) :
    (c * X.tmod M).tmod M = (c * X).tmod M := by
  rcases le_or_lt 0 X with hX | hX
  · exact mul_tmod_strip_nonneg c X M hc hX hM
  · have key := mul_tmod_strip_nonneg c (-X) M hc (by omega) hM
    calc (c * X.tmod M).tmod M
        = (c * (-(-X)).tmod M).tmod M := by rw [neg_neg]
      _ = (-(c * (-X).tmod M)).tmod M := by rw [tmod_neg_left]; ring_nf
      _ = -((c * (-X).tmod M).tmod M) := tmod_neg_left _ _
      _ = -((c * -X).tmod M) := by rw [key]
      _ = (-(c * -X)).tmod M := (tmod_neg_left _ _).symm
      _ = (c * X).tmod M := by ring_nf

/-- Two nonnegative factors congruent modulo a positive `M` give the same
truncated remainder after multiplication by an arbitrary integer. -/
theorem tmod_mul_congr (A B s M : Int) (hA : 0 ≤ A) (hB : 0 ≤ B) (hM : 0 < M)
    (h : A % M = B % M) : (A * s).tmod M = (B * s).tmod M := by
  rcases le_or_lt 0 s with hs | hs
  · have h1 : 0 ≤ A * s := mul_nonneg hA hs
    have h2 : 0 ≤ B * s := mul_nonneg hB hs
    rw [Int.tmod_eq_emod h1 hM.le, Int.tmod_eq_emod h2 hM.le,
      Int.mul_emod, h, ← Int.mul_emod]
  · have h1 : 0 ≤ A * -s := mul_nonneg hA (by omega)
    have h2 : 0 ≤ B * -s := mul_nonneg hB (by omega)
    have key : (A * -s).tmod M = (B * -s).tmod M := by
      rw [Int.tmod_eq_emod h1 hM.le, Int.tmod_eq_emod h2 hM.le,
        Int.mul_emod, h, ← Int.mul_emod]
    calc (A * s).tmod M
        = (-(A * -s)).tmod M := by ring_nf
      _ = -((A * -s).tmod M) := tmod_neg_left _ _
      _ = -((B * -s).tmod M) := by rw [key]
      _ = (-(B * -s)).tmod M := (tmod_neg_left _ _).symm
      _ = (B * s).tmod M := by ring_nf

/-! ### Composition laws of the generator -/

theorem LCG.pow_multiplier (l : LCG) (k : Nat) : (l.pow k).multiplier = l.multiplier := rfl

theorem LCG.pow_modulus (l : LCG) (k : Nat) : (l.pow k).modulus = l.modulus := rfl

theorem LCG.next_eq_pow_one (l : LCG) : l.next = l.pow 1 := rfl

/-- Jumping `p` ticks and then `q` ticks is the same as jumping `p + q`. -/
theorem LCG.pow_pow (l : LCG) (hM : 0 < l.modulus) (p q : Nat) :
    (l.pow p).pow q = l.pow (p + q) := by
  obtain ⟨m, M, s⟩ := l
  simp only [LCG.pow] at *
  congr 1
  have hMne : M ≠ 0 := by omega
  have h1 : ((m ^ q % M) * (((m ^ p % M) * s).tmod M)).tmod M
      = ((m ^ q % M) * ((m ^ p % M) * s)).tmod M :=
    mul_tmod_strip _ _ _ (Int.emod_nonneg _ hMne) hM
  rw [h1, show (m ^ q % M) * ((m ^ p % M) * s) = ((m ^ q % M) * (m ^ p % M)) * s by ring]
  apply tmod_mul_congr _ _ _ _
    (mul_nonneg (Int.emod_nonneg _ hMne) (Int.emod_nonneg _ hMne))
    (Int.emod_nonneg _ hMne) hM
  rw [← Int.mul_emod, ← pow_add, Int.emod_emod, add_comm q p]

/-! ### The generator value indexed by absolute tick -/

theorem valueAt_nonneg (m M seed : Int) (t : Nat) (hM : 0 < M) :
    0 ≤ valueAt m M seed t :=
  Int.emod_nonneg _ (by omega)

theorem valueAt_lt (m M seed : Int) (t : Nat) (hM : 0 < M) :
    valueAt m M seed t < M :=
  Int.emod_lt_of_pos _ hM

/-- Jumping `k` ticks from a generator synchronized to tick `a` lands on the
value at tick `a + k`. -/
theorem pow_state_valueAt (m M seed : Int) (hM : 0 < M) (a k : Nat) (l : LCG)
    (hmul : l.multiplier = m) (hmod : l.modulus = M)
    (hst : l.state = valueAt m M seed a) :
    (l.pow k).state = valueAt m M seed (a + k) := by
  have hstate : (l.pow k).state = ((m ^ k % M) * valueAt m M seed a).tmod M := by
    simp only [LCG.pow, hmul, hmod, hst]
  rw [hstate]
  simp only [valueAt]
  have hMne : M ≠ 0 := by omega
  have h1 : 0 ≤ (m ^ k % M) * (m ^ a * seed % M) :=
    mul_nonneg (Int.emod_nonneg _ hMne) (Int.emod_nonneg _ hMne)
  rw [Int.tmod_eq_emod h1 hM.le, Int.mul_emod, Int.emod_emod, Int.emod_emod,
    ← Int.mul_emod]
  rw [show m ^ k * (m ^ a * seed) = m ^ (a + k) * seed by rw [pow_add]; ring]

theorem next_state_valueAt (m M seed : Int) (hM : 0 < M) (a : Nat) (l : LCG)
    (hmul : l.multiplier = m) (hmod : l.modulus = M)
    (hst : l.state = valueAt m M seed a) :
    l.next = ⟨m, M, valueAt m M seed (a + 1)⟩ := by
  have h := pow_state_valueAt m M seed hM a 1 l hmul hmod hst
  have heta : l.pow 1 = ⟨l.multiplier, l.modulus, (l.pow 1).state⟩ := rfl
  rw [LCG.next_eq_pow_one, heta, h, hmul, hmod]

/-! ### Transport between the faithful loop and its fast mirror -/

theorem next_coe (m M st : Nat) :
    LCG.next ⟨(m : Int), (M : Int), (st : Int)⟩ =
      ⟨(m : Int), (M : Int), ((m * st % M : Nat) : Int)⟩ := by
  simp only [LCG.next, LCG.pow, pow_one]
  congr 1
  rw [show ((m : Int)) % (M : Int) = ((m % M : Nat) : Int) from (Int.natCast_mod m M).symm]
  rw [show ((m % M : Nat) : Int) * (st : Int) = ((m % M * st : Nat) : Int) by push_cast; ring]
  rw [tmod_coe, Nat.mod_mul_mod]

theorem scanNat_inl_lt (m M thr : Nat) : ∀ (fuel st fl st2 : Nat),
    scanNat m M thr fuel st = .inl (fl, st2) → fl < fuel := by
  intro fuel
  induction fuel with
  | zero => intro st fl st2 h; rw [scanNat_zero] at h; cases h
  | succ f ih =>
    intro st fl st2 h
    rw [scanNat_succ] at h
    by_cases hc : m * st % M < thr
    · rw [if_pos hc] at h
      cases h
      omega
    · rw [if_neg hc] at h
      have := ih _ _ _ h
      omega

/-- The faithful scan loop agrees with the fast mirror on generators whose
components are nonnegative machine values. -/
theorem scanLoop_eq_scanNat (m M thrN : Nat) :
    ∀ (fuel : Nat) (st : Nat) (inc : Int),
    State.scanLoop ((thrN : Nat) : Int) fuel inc ⟨(m : Int), (M : Int), (st : Int)⟩ =
      match scanNat m M thrN fuel st with
      | .inl (fl, st2) =>
          some (inc + ((fuel - fl - 1 : Nat) : Int), ⟨(m : Int), (M : Int), (st2 : Int)⟩)
      | .inr _ => none := by
  intro fuel
  induction fuel with
  | zero => intro st inc; rw [scanNat_zero]; rfl
  | succ f ih =>
    intro st inc
    rw [scanNat_succ]
    simp only [State.scanLoop, next_coe]
    by_cases hc : m * st % M < thrN
    · have hcI : ((m * st % M : Nat) : Int) < ((thrN : Nat) : Int) := by exact_mod_cast hc
      rw [if_pos hcI, if_pos hc]
      simp only [Nat.succ_sub (Nat.le_refl f), Nat.sub_self]
      norm_num
    · have hcI : ¬ ((m * st % M : Nat) : Int) < ((thrN : Nat) : Int) := by exact_mod_cast hc
      rw [if_neg hcI, if_neg hc, ih]
      cases hsn : scanNat m M thrN f (m * st % M) with
      | inl p =>
        obtain ⟨fl, st2⟩ := p
        have hlt : fl < f := scanNat_inl_lt m M thrN f _ fl st2 hsn
        simp only
        congr 2
        have : (f + 1 - fl - 1 : Nat) = (f - fl - 1 : Nat) + 1 := by omega
        rw [this]
        push_cast
        ring
      | inr s1 => simp only

/-! ### Least-acceptance characterization of the scan loop -/

/-- When the scan loop returns, the accepted counter is the least tick after
the loop's starting tick whose generator value lies below the threshold. -/
theorem scanLoop_spec (thrI m M seed : Int) (hM : 0 < M) :
    ∀ (fuel : Nat) (a : Nat) (l : LCG) (res : Int × LCG),
    l.multiplier = m → l.modulus = M → l.state = valueAt m M seed a →
    State.scanLoop thrI fuel ((a : Int) + 1) l = some res →
    ∃ t : Nat, a + 1 ≤ t ∧ res.1 = (t : Int) ∧
      res.2 = ⟨m, M, valueAt m M seed t⟩ ∧
      valueAt m M seed t < thrI ∧
      ∀ u : Nat, a + 1 ≤ u → u < t → thrI ≤ valueAt m M seed u := by
  intro fuel
  induction fuel with
  | zero =>
    intro a l res _ _ _ h
    simp [State.scanLoop] at h
  | succ f ih =>
    intro a l res hmul hmod hst h
    have hl2 := next_state_valueAt m M seed hM a l hmul hmod hst
    simp only [State.scanLoop, hl2] at h
    by_cases hacc : valueAt m M seed (a + 1) < thrI
    · rw [if_pos hacc] at h
      have hres : ((a : Int) + 1, (⟨m, M, valueAt m M seed (a + 1)⟩ : LCG)) = res :=
        Option.some_inj.mp h
      refine ⟨a + 1, Nat.le_refl _, ?_, ?_, hacc, ?_⟩
      · rw [← hres]; push_cast; ring
      · rw [← hres]
      · intro u hu1 hu2; omega
    · rw [if_neg hacc] at h
      rw [show ((a : Int) + 1 + 1) = (((a + 1 : Nat) : Int) + 1) by push_cast; ring] at h
      obtain ⟨t, ht1, ht2, ht3, ht4, ht5⟩ :=
        ih (a + 1) ⟨m, M, valueAt m M seed (a + 1)⟩ res rfl rfl rfl h
      refine ⟨t, by omega, ht2, ht3, ht4, ?_⟩
      intro u hu1 hu2
      rcases Nat.eq_or_lt_of_le hu1 with heq | hlt
      · rw [← heq]
        exact le_of_not_lt hacc
      · exact ht5 u hlt hu2

theorem tdiv_mono_nonneg (a b : Int) (ha : 0 ≤ a) (hab : a ≤ b) :
    a.tdiv 100 ≤ b.tdiv 100 := by
  rw [Int.tdiv_eq_ediv ha (by norm_num), Int.tdiv_eq_ediv (by omega) (by norm_num)]
  exact Int.ediv_le_ediv (by norm_num) hab

/-- The generator after the jump of `next_time` is synchronized to the tick
index of the requested instant. -/
theorem jumped_spec (s : State) (cur : Int) (m M seed : Int) (hM : 0 < M)
    (hmul : s.lcg.multiplier = m) (hmod : s.lcg.modulus = M)
    (htime : 0 ≤ s.time) (hcur : s.time ≤ cur)
    (hsync : s.lcg.state = valueAt m M seed (s.time.tdiv 100).toNat) :
    State.jumped s cur = ⟨m, M, valueAt m M seed (cur.tdiv 100).toNat⟩ := by
  have hprev : 0 ≤ s.time.tdiv 100 := Int.tdiv_nonneg htime (by norm_num)
  have hmono : s.time.tdiv 100 ≤ cur.tdiv 100 := tdiv_mono_nonneg _ _ htime hcur
  rw [State.jumped]
  by_cases hj : s.time.tdiv 100 < cur.tdiv 100
  · rw [if_pos hj]
    have hk : (s.time.tdiv 100).toNat + (cur.tdiv 100 - s.time.tdiv 100).toNat
        = (cur.tdiv 100).toNat := by omega
    have hstate := pow_state_valueAt m M seed hM (s.time.tdiv 100).toNat
      (cur.tdiv 100 - s.time.tdiv 100).toNat s.lcg hmul hmod hsync
    rw [hk] at hstate
    have heta : s.lcg.pow (cur.tdiv 100 - s.time.tdiv 100).toNat
        = ⟨s.lcg.multiplier, s.lcg.modulus,
            (s.lcg.pow (cur.tdiv 100 - s.time.tdiv 100).toNat).state⟩ := rfl
    rw [heta, hstate, hmul, hmod]
  · rw [if_neg hj]
    have heq : s.time.tdiv 100 = cur.tdiv 100 := by omega
    have heta : s.lcg = ⟨s.lcg.multiplier, s.lcg.modulus, s.lcg.state⟩ := rfl
    rw [heta, hsync, heq, hmul, hmod]

/-- Full characterization of a successful `next_time` call: the new stored
time is 100 ms times the least tick index past the current tick whose
generator value is below the threshold, the generator lands synchronized on
that tick, and the gap is untouched. -/
theorem next_time_spec (fuel : Nat) (s : State) (cur : Int) (s2 : State)
    (m M seed : Int) (hM : 0 < M)
    (hmul : s.lcg.multiplier = m) (hmod : s.lcg.modulus = M)
    (htime : 0 ≤ s.time) (hcur : s.time ≤ cur)
    (hsync : s.lcg.state = valueAt m M seed (s.time.tdiv 100).toNat)
    (hres : State.next_time fuel s cur = some s2) :
    ∃ t : Nat, s2.time = 100 * (t : Int) ∧
      (cur.tdiv 100).toNat + 1 ≤ t ∧
      s2.gap = s.gap ∧
      s2.lcg = ⟨m, M, valueAt m M seed t⟩ ∧
      valueAt m M seed t < State.threshold M s.gap ∧
      ∀ u : Nat, (cur.tdiv 100).toNat + 1 ≤ u → u < t →
        State.threshold M s.gap ≤ valueAt m M seed u := by
  have hcur0 : 0 ≤ cur := le_trans htime hcur
  have hcurI : 0 ≤ cur.tdiv 100 := Int.tdiv_nonneg hcur0 (by norm_num)
  have hjump := jumped_spec s cur m M seed hM hmul hmod htime hcur hsync
  rw [State.next_time, if_pos hcur] at hres
  rw [show cur.tdiv 100 + 1 = (((cur.tdiv 100).toNat : Nat) : Int) + 1 by
    rw [Int.toNat_of_nonneg hcurI]] at hres
  cases hscan : State.scanLoop (State.threshold s.lcg.modulus s.gap) fuel
      ((((cur.tdiv 100).toNat : Nat) : Int) + 1) (State.jumped s cur) with
  | none => rw [hscan] at hres; cases hres
  | some res =>
    rw [hscan] at hres
    have hs2 : s2 = { s with time := res.1 * 100, lcg := res.2 } :=
      (Option.some_inj.mp hres).symm
    rw [hmod] at hscan
    obtain ⟨t, ht1, ht2, ht3, ht4, ht5⟩ := scanLoop_spec
      (State.threshold M s.gap) m M seed hM fuel (cur.tdiv 100).toNat
      (State.jumped s cur) res
      (by rw [hjump]) (by rw [hjump]) (by rw [hjump]) hscan
    refine ⟨t, ?_, ht1, ?_, ?_, ht4, ht5⟩
    · rw [hs2]; simp only; rw [ht2]; ring
    · rw [hs2]
    · rw [hs2]; simp only; exact ht3

/-! ### Frame and monotonicity facts about the scan loop -/

theorem scanLoop_frame (thr : Int) : ∀ (fuel : Nat) (inc : Int) (l : LCG)
    (res : Int × LCG), State.scanLoop thr fuel inc l = some res →
    res.2.multiplier = l.multiplier ∧ res.2.modulus = l.modulus := by
  intro fuel
  induction fuel with
  | zero => intro inc l res h; simp [State.scanLoop] at h
  | succ f ih =>
    intro inc l res h
    simp only [State.scanLoop] at h
    by_cases hc : (l.next).state < thr
    · rw [if_pos hc] at h
      rw [← Option.some_inj.mp h]
      exact ⟨rfl, rfl⟩
    · rw [if_neg hc] at h
      exact ih (inc + 1) l.next res h

theorem scanLoop_ge (thr : Int) : ∀ (fuel : Nat) (inc : Int) (l : LCG)
    (res : Int × LCG), State.scanLoop thr fuel inc l = some res →
    inc ≤ res.1 := by
  intro fuel
  induction fuel with
  | zero => intro inc l res h; simp [State.scanLoop] at h
  | succ f ih =>
    intro inc l res h
    simp only [State.scanLoop] at h
    by_cases hc : (l.next).state < thr
    · rw [if_pos hc] at h
      rw [← Option.some_inj.mp h]
    · rw [if_neg hc] at h
      have := ih (inc + 1) l.next res h
      omega

theorem lt_succ_tdiv_mul (cur : Int) : cur < (cur.tdiv 100 + 1) * 100 := by
  have h1 := Int.tdiv_add_tmod cur 100
  have h2 : cur.tmod 100 < 100 := Int.tmod_lt_of_pos cur (by norm_num)
  have h3 : (cur.tdiv 100 + 1) * 100 = 100 * cur.tdiv 100 + 100 := by ring
  omega

/-! ### Enumeration produced by the iterator -/

/-- The timestamps yielded by the iterator are exactly the accepted ticks in
increasing order: every yielded time is an accepted tick past the starting
tick (soundness), and every accepted tick up to the last yielded one is
yielded (completeness). -/
theorem takeTimes_spec (m M seed : Int) (hM : 0 < M) (fuel : Nat) :
    ∀ (n : Nat) (s : State) (ts : List Int),
    s.lcg.multiplier = m → s.lcg.modulus = M → 0 ≤ s.time →
    s.lcg.state = valueAt m M seed (s.time.tdiv 100).toNat →
    State.takeTimes fuel n s = some ts →
    (∀ x ∈ ts, ∃ t : Nat, x = 100 * (t : Int) ∧
        (s.time.tdiv 100).toNat < t ∧
        valueAt m M seed t < State.threshold M s.gap) ∧
    (∀ u : Nat, (s.time.tdiv 100).toNat < u →
        valueAt m M seed u < State.threshold M s.gap →
        (∃ x ∈ ts, 100 * (u : Int) ≤ x) → (100 * (u : Int)) ∈ ts) := by
  intro n
  induction n with
  | zero =>
    intro s ts _ _ _ _ h
    have hts : ts = [] := (Option.some_inj.mp h).symm
    subst hts
    exact ⟨by simp, by simp⟩
  | succ n ih =>
    intro s ts hmul hmod htime hsync h
    simp only [State.takeTimes, State.iterStep] at h
    cases hnt : State.next_time fuel s s.time with
    | none => rw [hnt] at h; cases h
    | some s2 =>
      rw [hnt] at h
      simp only [Option.map_some'] at h
      obtain ⟨t, htime2, htgt, hgap2, hlcg2, hacc, hleast⟩ :=
        next_time_spec fuel s s.time s2 m M seed hM hmul hmod htime
          (le_refl s.time) hsync hnt
      cases hrest : State.takeTimes fuel n s2 with
      | none => rw [hrest] at h; cases h
      | some ts1 =>
        rw [hrest] at h
        simp only [Option.map_some'] at h
        have hts : ts = s2.time :: ts1 := (Option.some_inj.mp h).symm
        have htick2 : (s2.time.tdiv 100).toNat = t := by
          rw [htime2, Int.mul_tdiv_cancel_left (t : Int) (by norm_num),
            Int.toNat_ofNat]
        have htime2nn : 0 ≤ s2.time := by rw [htime2]; positivity
        obtain ⟨ihS, ihC⟩ := ih s2 ts1 (by rw [hlcg2]) (by rw [hlcg2]) htime2nn
          (by rw [hlcg2, htick2])
          hrest
        rw [hgap2] at ihS ihC
        subst hts
        constructor
        · intro x hx
          rcases List.mem_cons.mp hx with hx1 | hx1
          · exact ⟨t, by rw [hx1, htime2], htgt, hacc⟩
          · obtain ⟨u, hu1, hu2, hu3⟩ := ihS x hx1
            exact ⟨u, hu1, by omega, hu3⟩
        · intro u hu hvu ⟨x, hx, hxle⟩
          rcases Nat.lt_trichotomy u t with hut | hut
          · exact absurd (hleast u (by omega) hut) (by omega)
          · rcases hut with rfl | hut
            · rw [← htime2]; exact List.mem_cons_self _ _
            · rcases List.mem_cons.mp hx with hx1 | hx1
              · exfalso
                rw [hx1, htime2] at hxle
                omega
              · refine List.mem_cons_of_mem _ (ihC u ?_ hvu ⟨x, hx1, hxle⟩)
                omega

/-! ### Threshold monotonicity in the gap -/

theorem threshold_antitone (M a b : Int) (hM : 0 ≤ M) (ha : 0 < a) (hab : a ≤ b) :
    State.threshold M b ≤ State.threshold M a := by
  have hb : 0 < b := lt_of_lt_of_le ha hab
  lift M to Nat using hM
  lift a to Nat using ha.le
  lift b to Nat using hb.le
  rw [State.threshold, State.threshold,
    show ((a : Int) * 10) = ((a * 10 : Nat) : Int) by push_cast; ring,
    show ((b : Int) * 10) = ((b * 10 : Nat) : Int) by push_cast; ring,
    tdiv_coe, tdiv_coe]
  have haN : 0 < a := by exact_mod_cast ha
  have habN : a ≤ b := by exact_mod_cast hab
  exact_mod_cast Nat.div_le_div_left (by omega) (by omega)

/-! ## Claims -/

/-- C1: for every scheduler state with stored `time`, `gap`, and generator
synchronized to the tick index of `time`, and every instant `cur ≥ time`
(with the data model's positive modulus and gap), a completed `next_time cur`
leaves `time` equal to 100 ms times the earliest tick index
`t ≥ cur_tick + 1` whose generator value `multiplier^t * seed mod modulus`
is below `threshold = modulus / (gap * 10)` (floor division). -/
theorem next_time_computes_earliest_accepted_tick
    (fuel : Nat) (s : State) (cur : Int) (s2 : State) (m M seed : Int)
    (hM : 0 < M) (hgap : 0 < s.gap)
    (hmul : s.lcg.multiplier = m) (hmod : s.lcg.modulus = M)
    (htime : 0 ≤ s.time) (hcur : s.time ≤ cur)
    (hsync : s.lcg.state = valueAt m M seed (s.time.tdiv 100).toNat)
    (hres : State.next_time fuel s cur = some s2) :
    ∃ t : Nat, s2.time = 100 * (t : Int) ∧
      (cur.tdiv 100).toNat + 1 ≤ t ∧
      valueAt m M seed t < M / (s.gap * 10) ∧
      ∀ u : Nat, (cur.tdiv 100).toNat + 1 ≤ u → u < t →
        M / (s.gap * 10) ≤ valueAt m M seed u := by
  have hthr : State.threshold M s.gap = M / (s.gap * 10) :=
    Int.tdiv_eq_ediv hM.le (by positivity)
  obtain ⟨t, h1, h2, _, _, h5, h6⟩ :=
    next_time_spec fuel s cur s2 m M seed hM hmul hmod htime hcur hsync hres
  rw [hthr] at h5 h6
  exact ⟨t, h1, h2, h5, h6⟩

/-- Witness for C1 at a small concrete scheduler: multiplier 3, modulus 97,
seed 5, gap 1, time 0, current instant 0; the first accepted tick is 21. -/
theorem next_time_computes_earliest_accepted_tick_witness :
    ∃ t : Nat, (State.new 2100 1 ⟨3, 97, 7⟩).time = 100 * (t : Int) ∧
      ((0 : Int).tdiv 100).toNat + 1 ≤ t ∧
      valueAt 3 97 5 t < 97 / ((1 : Int) * 10) ∧
      ∀ u : Nat, ((0 : Int).tdiv 100).toNat + 1 ≤ u → u < t →
        97 / ((1 : Int) * 10) ≤ valueAt 3 97 5 u :=
  next_time_computes_earliest_accepted_tick 25 (State.new 0 1 ⟨3, 97, 5⟩) 0
    (State.new 2100 1 ⟨3, 97, 7⟩) 3 97 5 (by norm_num) (by decide) rfl rfl
    (by decide) (by decide) (by decide) (by decide)

/-- C2: for gaps `0 < a < b` with identical multiplier, modulus, seed and
starting time, every ping tick produced with gap `b` that falls inside the
window covered by the gap-`a` run is also produced with gap `a`. -/
theorem pings_nested_superset
    (m M seed t0 stv a b : Int) (hM : 0 < M) (ha : 0 < a) (hab : a < b)
    (ht0 : 0 ≤ t0) (hst : stv = valueAt m M seed (t0.tdiv 100).toNat)
    (fa fb na nb : Nat) (tsa tsb : List Int)
    (hA : State.takeTicks fa na (State.new t0 a ⟨m, M, stv⟩) = some tsa)
    (hB : State.takeTicks fb nb (State.new t0 b ⟨m, M, stv⟩) = some tsb) :
    ∀ x ∈ tsb, (∃ u ∈ tsa, x ≤ u) → x ∈ tsa := by
  rw [State.takeTicks] at hA hB
  cases hTA : State.takeTimes fa na (State.new t0 a ⟨m, M, stv⟩) with
  | none => rw [hTA] at hA; cases hA
  | some tA =>
  cases hTB : State.takeTimes fb nb (State.new t0 b ⟨m, M, stv⟩) with
  | none => rw [hTB] at hB; cases hB
  | some tB =>
  rw [hTA] at hA
  rw [hTB] at hB
  simp only [Option.map_some'] at hA hB
  have htsa : tsa = tA.map (fun t => t.tdiv 100) := (Option.some_inj.mp hA).symm
  have htsb : tsb = tB.map (fun t => t.tdiv 100) := (Option.some_inj.mp hB).symm
  obtain ⟨sA, cA⟩ := takeTimes_spec m M seed hM fa na
    (State.new t0 a ⟨m, M, stv⟩) tA rfl rfl ht0 hst hTA
  obtain ⟨sB, _⟩ := takeTimes_spec m M seed hM fb nb
    (State.new t0 b ⟨m, M, stv⟩) tB rfl rfl ht0 hst hTB
  simp only [State.new] at sA cA sB
  subst htsa htsb
  intro x hx hwit
  obtain ⟨y, hyB, rfl⟩ := List.mem_map.mp hx
  obtain ⟨t, hy100, htgt, htlt⟩ := sB y hyB
  have hxt : y.tdiv 100 = (t : Int) := by
    rw [hy100, Int.mul_tdiv_cancel_left _ (by norm_num)]
  have hthr : State.threshold M b ≤ State.threshold M a :=
    threshold_antitone M a b hM.le ha hab.le
  obtain ⟨u, huA, hule⟩ := hwit
  obtain ⟨z, hzA, rfl⟩ := List.mem_map.mp huA
  obtain ⟨tz, hz100, _, _⟩ := sA z hzA
  have h100 : 100 * (t : Int) ≤ z := by
    rw [hxt, hz100, Int.mul_tdiv_cancel_left _ (by norm_num)] at hule
    rw [hz100]
    omega
  have hmem := cA t htgt (lt_of_lt_of_le htlt hthr) ⟨z, hzA, h100⟩
  exact List.mem_map.mpr ⟨100 * (t : Int), hmem, by
    rw [Int.mul_tdiv_cancel_left _ (by norm_num), hxt]⟩

/-- Witness for C2: gaps 1 and 2, multiplier 7, modulus 101, seed 2, start
time 0; both one-ping runs accept tick 11, and the subset property holds. -/
theorem pings_nested_superset_witness : (11 : Int) ∈ [(11 : Int)] :=
  pings_nested_superset 7 101 2 0 2 1 2 (by norm_num) (by norm_num)
    (by norm_num) (by norm_num) (by decide) 30 30 1 1 [11] [11]
    (by decide) (by decide) 11 (by decide) ⟨11, by decide, by decide⟩

theorem pow_zero_canonical (l : LCG) (hM : 0 < l.modulus) (hs0 : 0 ≤ l.state)
    (hsM : l.state < l.modulus) : l.pow 0 = l := by
  obtain ⟨m, M, s⟩ := l
  dsimp only at hM hs0 hsM
  simp only [LCG.pow, pow_zero]
  congr 1
  rcases lt_or_le 1 M with hM1 | hM1
  · rw [Int.emod_eq_of_lt (by norm_num) hM1, one_mul, Int.tmod_eq_of_lt hs0 hsM]
  · have hMeq : M = 1 := by omega
    subst hMeq
    have hseq : s = 0 := by omega
    subst hseq
    decide

/-- C3: for any LCG with positive modulus, jumping by `p` then by `q` equals
one jump by `p + q`; and from a canonical state (in `[0, modulus)`, the data
model's invariant), a jump by `n` equals `n` single-step advances. -/
theorem lcg_jump_additive (l : LCG) (hM : 0 < l.modulus) :
    (∀ p q : Nat, (l.pow p).pow q = l.pow (p + q)) ∧
    (0 ≤ l.state → l.state < l.modulus → ∀ n : Nat, LCG.next^[n] l = l.pow n) := by
  refine ⟨fun p q => LCG.pow_pow l hM p q, fun hs0 hsM n => ?_⟩
  induction n generalizing l with
  | zero =>
    rw [Function.iterate_zero_apply, pow_zero_canonical l hM hs0 hsM]
  | succ n ih =>
    rw [Function.iterate_succ_apply, LCG.next_eq_pow_one]
    have hMne : l.modulus ≠ 0 := by omega
    have h1 : (0 : Int) ≤ (l.pow 1).state :=
      Int.tmod_nonneg _ (mul_nonneg (Int.emod_nonneg _ hMne) hs0)
    have h2 : (l.pow 1).state < (l.pow 1).modulus := Int.tmod_lt_of_pos _ hM
    rw [ih (l.pow 1) hM h1 h2, LCG.pow_pow l hM 1 n, add_comm 1 n]

/-- Witness for C3 at multiplier 3, modulus 97, seed 5. -/
theorem lcg_jump_additive_witness :
    ((⟨3, 97, 5⟩ : LCG).pow 2).pow 3 = (⟨3, 97, 5⟩ : LCG).pow (2 + 3) ∧
    LCG.next^[4] (⟨3, 97, 5⟩ : LCG) = (⟨3, 97, 5⟩ : LCG).pow 4 :=
  ⟨(lcg_jump_additive ⟨3, 97, 5⟩ (by norm_num)).1 2 3,
   (lcg_jump_additive ⟨3, 97, 5⟩ (by norm_num)).2 (by decide) (by decide) 4⟩

/-- C6: when the requested instant is strictly before the stored time,
`next_time` is a no-op: the whole state (time, gap, generator) is returned
unchanged and no error occurs. -/
theorem next_time_noop_before_stored_time (fuel : Nat) (s : State) (cur : Int)
    (h : cur < s.time) : State.next_time fuel s cur = some s := by
  rw [State.next_time, if_neg (by omega)]

/-- Witness for C6: stored time 100, requested instant 99. -/
theorem next_time_noop_before_stored_time_witness :
    (99 : Int) < (State.new 100 1 ⟨3, 97, 5⟩).time ∧
    State.next_time 5 (State.new 100 1 ⟨3, 97, 5⟩) 99 =
      some (State.new 100 1 ⟨3, 97, 5⟩) :=
  ⟨by decide, next_time_noop_before_stored_time 5 _ 99 (by decide)⟩

theorem jumped_multiplier (s : State) (cur : Int) :
    (State.jumped s cur).multiplier = s.lcg.multiplier := by
  rw [State.jumped]; split <;> rfl

theorem jumped_modulus (s : State) (cur : Int) :
    (State.jumped s cur).modulus = s.lcg.modulus := by
  rw [State.jumped]; split <;> rfl

/-- C5: the stored time never decreases across a completed `next_time`
call, and each iterator step yields a timestamp strictly greater than the
stored time it started from (hence successive yields strictly increase,
since the yield equals the new stored time). -/
theorem stored_time_monotone_and_yields_increase :
    (∀ (fuel : Nat) (s : State) (cur : Int) (s2 : State),
        State.next_time fuel s cur = some s2 → s.time ≤ s2.time) ∧
    (∀ (fuel : Nat) (s : State) (t : Int) (s2 : State),
        State.iterStep fuel s = some (t, s2) → s.time < t ∧ s2.time = t) := by
  have key : ∀ (fuel : Nat) (s : State) (cur : Int) (s2 : State),
      s.time ≤ cur → State.next_time fuel s cur = some s2 → cur < s2.time := by
    intro fuel s cur s2 hord h
    rw [State.next_time, if_pos hord] at h
    cases hscan : State.scanLoop (State.threshold s.lcg.modulus s.gap) fuel
        (cur.tdiv 100 + 1) (State.jumped s cur) with
    | none => rw [hscan] at h; cases h
    | some res =>
      rw [hscan] at h
      have hs2 : s2 = { s with time := res.1 * 100, lcg := res.2 } :=
        (Option.some_inj.mp h).symm
      have hge : cur.tdiv 100 + 1 ≤ res.1 := scanLoop_ge _ fuel _ _ res hscan
      have h1 : cur < (cur.tdiv 100 + 1) * 100 := lt_succ_tdiv_mul cur
      have h2 : (cur.tdiv 100 + 1) * 100 ≤ res.1 * 100 :=
        mul_le_mul_of_nonneg_right hge (by norm_num)
      rw [hs2]
      calc cur < (cur.tdiv 100 + 1) * 100 := h1
        _ ≤ res.1 * 100 := h2
  constructor
  · intro fuel s cur s2 h
    by_cases hord : s.time ≤ cur
    · exact le_of_lt (lt_of_le_of_lt hord (key fuel s cur s2 hord h))
    · rw [State.next_time, if_neg hord] at h
      rw [← Option.some_inj.mp h]
  · intro fuel s t s2 h
    rw [State.iterStep] at h
    cases hnt : State.next_time fuel s s.time with
    | none => rw [hnt] at h; cases h
    | some s3 =>
      rw [hnt] at h
      simp only [Option.map_some'] at h
      have hp : (s3.time, s3) = (t, s2) := Option.some_inj.mp h
      have ht : s3.time = t := congrArg Prod.fst hp
      have hs : s3 = s2 := congrArg Prod.snd hp
      have := key fuel s s.time s3 (le_refl _) hnt
      exact ⟨by omega, by rw [← hs, ht]⟩

/-- Witness for C5 at the small concrete scheduler with modulus 97. -/
theorem stored_time_monotone_and_yields_increase_witness :
    (State.new 0 1 ⟨3, 97, 5⟩).time ≤ (State.new 2100 1 ⟨3, 97, 7⟩).time ∧
    ((State.new 0 1 ⟨3, 97, 5⟩).time < 2100 ∧
      (State.new 2100 1 ⟨3, 97, 7⟩).time = 2100) :=
  ⟨stored_time_monotone_and_yields_increase.1 25 (State.new 0 1 ⟨3, 97, 5⟩) 0
      (State.new 2100 1 ⟨3, 97, 7⟩) (by decide),
   stored_time_monotone_and_yields_increase.2 25 (State.new 0 1 ⟨3, 97, 5⟩) 2100
      (State.new 2100 1 ⟨3, 97, 7⟩) (by decide)⟩

/-- C10: a completed `next_time` call (and hence an iterator step) leaves
the gap, the generator's multiplier, and the generator's modulus exactly
unchanged; only the stored time and the generator state are mutated. -/
theorem next_time_preserves_parameters (fuel : Nat) (s : State) :
    (∀ (cur : Int) (s2 : State), State.next_time fuel s cur = some s2 →
        s2.gap = s.gap ∧ s2.lcg.multiplier = s.lcg.multiplier ∧
        s2.lcg.modulus = s.lcg.modulus) ∧
    (∀ (t : Int) (s2 : State), State.iterStep fuel s = some (t, s2) →
        s2.gap = s.gap ∧ s2.lcg.multiplier = s.lcg.multiplier ∧
        s2.lcg.modulus = s.lcg.modulus) := by
  have part1 : ∀ (cur : Int) (s2 : State), State.next_time fuel s cur = some s2 →
      s2.gap = s.gap ∧ s2.lcg.multiplier = s.lcg.multiplier ∧
      s2.lcg.modulus = s.lcg.modulus := by
    intro cur s2 h
    rw [State.next_time] at h
    by_cases hord : s.time ≤ cur
    · rw [if_pos hord] at h
      cases hscan : State.scanLoop (State.threshold s.lcg.modulus s.gap) fuel
          (cur.tdiv 100 + 1) (State.jumped s cur) with
      | none => rw [hscan] at h; cases h
      | some res =>
        rw [hscan] at h
        have hs2 : s2 = { s with time := res.1 * 100, lcg := res.2 } :=
          (Option.some_inj.mp h).symm
        obtain ⟨hm, hM⟩ := scanLoop_frame _ fuel _ _ res hscan
        rw [hs2]
        exact ⟨rfl, by rw [hm, jumped_multiplier], by rw [hM, jumped_modulus]⟩
    · rw [if_neg hord] at h
      rw [← Option.some_inj.mp h]
      exact ⟨rfl, rfl, rfl⟩
  refine ⟨part1, ?_⟩
  intro t s2 h
  rw [State.iterStep] at h
  cases hnt : State.next_time fuel s s.time with
  | none => rw [hnt] at h; cases h
  | some s3 =>
    rw [hnt] at h
    simp only [Option.map_some'] at h
    have hp : (s3.time, s3) = (t, s2) := Option.some_inj.mp h
    have hs : s3 = s2 := congrArg Prod.snd hp
    rw [← hs]
    exact part1 s.time s3 hnt

/-- Witness for C10 at the small concrete scheduler with modulus 97. -/
theorem next_time_preserves_parameters_witness :
    ((State.new 2100 1 ⟨3, 97, 7⟩).gap = (State.new 0 1 ⟨3, 97, 5⟩).gap ∧
      (State.new 2100 1 ⟨3, 97, 7⟩).lcg.multiplier =
        (State.new 0 1 ⟨3, 97, 5⟩).lcg.multiplier ∧
      (State.new 2100 1 ⟨3, 97, 7⟩).lcg.modulus =
        (State.new 0 1 ⟨3, 97, 5⟩).lcg.modulus) ∧
    ((State.new 2100 1 ⟨3, 97, 7⟩).gap = (State.new 0 1 ⟨3, 97, 5⟩).gap ∧
      (State.new 2100 1 ⟨3, 97, 7⟩).lcg.multiplier =
        (State.new 0 1 ⟨3, 97, 5⟩).lcg.multiplier ∧
      (State.new 2100 1 ⟨3, 97, 7⟩).lcg.modulus =
        (State.new 0 1 ⟨3, 97, 5⟩).lcg.modulus) :=
  ⟨(next_time_preserves_parameters 25 (State.new 0 1 ⟨3, 97, 5⟩)).1 0
      (State.new 2100 1 ⟨3, 97, 7⟩) (by decide),
   (next_time_preserves_parameters 25 (State.new 0 1 ⟨3, 97, 5⟩)).2 2100
      (State.new 2100 1 ⟨3, 97, 7⟩) (by decide)⟩

/-- Counterexample to C9: constructing a scheduler with the non-positive
gap -5 succeeds and stores that gap; nothing rejects it. -/
theorem construction_accepts_nonpositive_gap_cex :
    (State.new 0 (-5) LCG.default).gap = -5 ∧
    ¬ (0 < (State.new 0 (-5) LCG.default).gap) := by decide

/-- C9 (amended): construction never validates the gap: every constructor
stores the requested gap (or the default 2700) unchanged; positivity is an
unchecked precondition, not enforced at construction time. -/
theorem construction_stores_gap_unchecked :
    ∀ (t g : Int) (l : LCG) (n now : Int),
      (State.new t g l).gap = g ∧ (State.from_millis n).gap = GAP ∧
      (State.defaultAt now).gap = GAP :=
  fun _ _ _ _ _ => ⟨rfl, rfl, rfl⟩

/-- Counterexample to C7: for gaps 3435973834 < 3435973835 and the shipped
modulus, both thresholds truncate to 0, so the strict inequality fails. -/
theorem threshold_strict_cex :
    (0 : Int) < 3435973834 ∧ (3435973834 : Int) < 3435973835 ∧
    ¬ (State.threshold IM 3435973835 < State.threshold IM 3435973834) := by
  decide

/-- C7 (amended): for a nonnegative modulus and positive gaps `a < b` the
threshold is antitone: `threshold a ≥ threshold b` (equality is possible
when both floors collide, e.g. at 0). -/
theorem threshold_monotone_amended (M a b : Int) (hM : 0 ≤ M) (ha : 0 < a)
    (hab : a < b) : State.threshold M b ≤ State.threshold M a :=
  threshold_antitone M a b hM ha hab.le

/-- Witness for the amended C7 at the shipped modulus, gaps 2700 and 5400. -/
theorem threshold_monotone_amended_witness :
    State.threshold 34359738337 5400 ≤ State.threshold 34359738337 2700 :=
  threshold_monotone_amended 34359738337 2700 5400 (by norm_num) (by norm_num)
    (by norm_num)

theorem next_state_nonneg (l : LCG) (hs : 0 ≤ l.state) (hM : l.modulus ≠ 0) :
    0 ≤ (l.next).state := by
  show 0 ≤ ((l.multiplier ^ 1 % l.modulus) * l.state).tmod l.modulus
  exact Int.tmod_nonneg _ (mul_nonneg (Int.emod_nonneg _ hM) hs)

theorem scanLoop_none_of_thr_nonpos (thr : Int) (hthr : thr ≤ 0) :
    ∀ (fuel : Nat) (inc : Int) (l : LCG), 0 ≤ l.state → l.modulus ≠ 0 →
    State.scanLoop thr fuel inc l = none := by
  intro fuel
  induction fuel with
  | zero => intro inc l _ _; rfl
  | succ f ih =>
    intro inc l hs hM
    have h2 : 0 ≤ (l.next).state := next_state_nonneg l hs hM
    simp only [State.scanLoop]
    rw [if_neg (by omega)]
    exact ih (inc + 1) l.next h2 hM

/-- Counterexample to C8: with the default generator and the positive gap
3435973834 the threshold truncates to 0, the (nonnegative) generator state
can never go below it, and `next_time` never terminates: no amount of fuel
makes the scan loop return. -/
theorem next_time_nontermination_cex :
    (0 : Int) < 3435973834 ∧
    ¬ ∃ (fuel : Nat) (s2 : State),
        State.next_time fuel (State.new 0 3435973834 LCG.default) 0 = some s2 := by
  refine ⟨by norm_num, ?_⟩
  rintro ⟨fuel, s2, h⟩
  rw [State.next_time, if_pos (by decide),
    scanLoop_none_of_thr_nonpos _ (by decide) fuel _ _ (by decide) (by decide)] at h
  cases h

theorem scanLoop_terminates (thr M : Int) (hM : 0 < M) :
    ∀ (n : Nat) (l : LCG), l.modulus = M → (l.pow (n + 1)).state < thr →
    ∀ inc : Int, ∃ (fuel : Nat) (res : Int × LCG),
      State.scanLoop thr fuel inc l = some res := by
  intro n
  induction n with
  | zero =>
    intro l hmod hacc inc
    refine ⟨1, (inc, l.next), ?_⟩
    simp only [State.scanLoop]
    have hacc1 : (l.next).state < thr := by
      rw [LCG.next_eq_pow_one]
      simpa using hacc
    rw [if_pos hacc1]
  | succ n ih =>
    intro l hmod hacc inc
    by_cases hc : (l.next).state < thr
    · refine ⟨1, (inc, l.next), ?_⟩
      simp only [State.scanLoop]
      rw [if_pos hc]
    · have hMl : 0 < l.modulus := by omega
      have hnext : ((l.next).pow (n + 1)).state < thr := by
        rw [LCG.next_eq_pow_one, LCG.pow_pow l hMl 1 (n + 1)]
        rw [show 1 + (n + 1) = n + 1 + 1 by omega]
        exact hacc
      obtain ⟨f, res, hf⟩ := ih l.next (by rw [← hmod]; rfl) hnext (inc + 1)
      refine ⟨f + 1, res, ?_⟩
      simp only [State.scanLoop]
      rw [if_neg hc]
      exact hf

/-- C8 (amended): `next_time` terminates whenever the requested instant is
before the stored time (no-op) or some later tick's generator value lies
below the threshold; the counterexample above shows the unconditional claim
fails when no tick is ever accepted. -/
theorem next_time_terminates_amended (s : State) (cur : Int)
    (hM : 0 < s.lcg.modulus)
    (h : cur < s.time ∨ ∃ n : Nat,
        ((State.jumped s cur).pow (n + 1)).state <
          State.threshold s.lcg.modulus s.gap) :
    ∃ (fuel : Nat) (s2 : State), State.next_time fuel s cur = some s2 := by
  rcases h with hlt | ⟨n, hn⟩
  · exact ⟨0, s, by rw [State.next_time, if_neg (by omega)]⟩
  · by_cases hord : s.time ≤ cur
    · obtain ⟨fuel, res, hres⟩ := scanLoop_terminates
        (State.threshold s.lcg.modulus s.gap) s.lcg.modulus hM n
        (State.jumped s cur) (jumped_modulus s cur) hn (cur.tdiv 100 + 1)
      obtain ⟨r1, r2⟩ := res
      refine ⟨fuel, { s with time := r1 * 100, lcg := r2 }, ?_⟩
      rw [State.next_time, if_pos hord, hres]
    · exact ⟨0, s, by rw [State.next_time, if_neg hord]⟩

/-- Witness for the amended C8 at the small concrete scheduler: tick 21 is
accepted, so some fuel suffices. -/
theorem next_time_terminates_amended_witness :
    ∃ (fuel : Nat) (s2 : State),
      State.next_time fuel (State.new 0 1 ⟨3, 97, 5⟩) 0 = some s2 :=
  next_time_terminates_amended (State.new 0 1 ⟨3, 97, 5⟩) 0 (by decide)
    (Or.inr ⟨20, by decide⟩)

/-- A completed concrete `next_time` call, driven by the fast mirror: the
scheduler at time `T` with a machine-valued generator advances to `T2`. -/
theorem next_time_concrete (T T2 gap : Int) (m M st thrN fuel fl st2 : Nat)
    (hthr : State.threshold ((M : Nat) : Int) gap = ((thrN : Nat) : Int))
    (hscan : scanNat m M thrN fuel st = .inl (fl, st2))
    (hT2 : T2 = (T.tdiv 100 + 1 + ((fuel - fl - 1 : Nat) : Int)) * 100) :
    State.next_time fuel (State.new T gap ⟨(m : Int), (M : Int), (st : Int)⟩) T =
      some (State.new T2 gap ⟨(m : Int), (M : Int), (st2 : Int)⟩) := by
  have hjump : State.jumped (State.new T gap ⟨(m : Int), (M : Int), (st : Int)⟩) T
      = ⟨(m : Int), (M : Int), (st : Int)⟩ := by
    rw [State.jumped]
    exact if_neg (lt_irrefl _)
  rw [State.next_time]
  simp only [State.new] at hjump ⊢
  rw [if_pos (le_refl T), hjump, hthr,
    scanLoop_eq_scanNat m M thrN fuel st (T.tdiv 100 + 1), hscan, hT2]

theorem scanNat_add_inr (m M thr f2 f1 st st1 : Nat)
    (h : scanNat m M thr f1 st = .inr st1) :
    scanNat m M thr (f2 + f1) st = scanNat m M thr f2 st1 := by
  rw [scanNat_add, h]

theorem scanNat_add_inl (m M thr f2 f1 st fl st2 : Nat)
    (h : scanNat m M thr f1 st = .inl (fl, st2)) :
    scanNat m M thr (f2 + f1) st = .inl (f2 + fl, st2) := by
  rw [scanNat_add, h]

theorem takeTimes_cons (fuel n : Nat) (s s2 : State) (ts : List Int)
    (h1 : State.next_time fuel s s.time = some s2)
    (h2 : State.takeTimes fuel n s2 = some ts) :
    State.takeTimes fuel (n + 1) s = some (s2.time :: ts) := by
  simp only [State.takeTimes, State.iterStep, h1, Option.map_some', h2]

set_option maxRecDepth 100000 in
/-- C4: the scheduler constructed with seed 20180809, multiplier 3125,
modulus 34359738337, gap 2700 seconds and start time 1533812000000 epoch
milliseconds produces, as its first four ping tick indices
(timestamp / 100), exactly [15338123839, 15338127440, 15338175871,
15338193911], matching the repository's `IDEAL` test vector. -/
theorem reference_vectors :
    State.takeTicks 50000 4
      (State.new 1533812000000 2700 ⟨3125, 34359738337, 20180809⟩) =
      some [15338123839, 15338127440, 15338175871, 15338193911] := by
  show State.takeTicks 50000 4
      (State.new 1533812000000 2700
        ⟨((3125 : Nat) : Int), ((34359738337 : Nat) : Int), ((20180809 : Nat) : Int)⟩) = _

  have c1x1 : scanNat 3125 34359738337 1272582 2500 20180809 = .inr 1076321332 := by decide
  have c1x2 : scanNat 3125 34359738337 1272582 2500 1076321332 = .inl (1161, 741768) := by decide
  have c2x1 : scanNat 3125 34359738337 1272582 2500 741768 = .inr 19487108764 := by decide
  have c2x2 : scanNat 3125 34359738337 1272582 2500 19487108764 = .inl (1399, 889999) := by decide
  have c3x1 : scanNat 3125 34359738337 1272582 2500 889999 = .inr 16501839408 := by decide
  have c3x2 : scanNat 3125 34359738337 1272582 2500 16501839408 = .inr 32606172818 := by decide
  have c3x3 : scanNat 3125 34359738337 1272582 2500 32606172818 = .inr 7281124196 := by decide
  have c3x4 : scanNat 3125 34359738337 1272582 2500 7281124196 = .inr 9493133863 := by decide
  have c3x5 : scanNat 3125 34359738337 1272582 2500 9493133863 = .inr 6068449091 := by decide
  have c3x6 : scanNat 3125 34359738337 1272582 2500 6068449091 = .inr 18307556993 := by decide
  have c3x7 : scanNat 3125 34359738337 1272582 2500 18307556993 = .inr 17271176923 := by decide
  have c3x8 : scanNat 3125 34359738337 1272582 2500 17271176923 = .inr 6832511027 := by decide
  have c3x9 : scanNat 3125 34359738337 1272582 2500 6832511027 = .inr 228898086 := by decide
  have c3x10 : scanNat 3125 34359738337 1272582 2500 228898086 = .inr 1731185327 := by decide
  have c3x11 : scanNat 3125 34359738337 1272582 2500 1731185327 = .inr 31469377436 := by decide
  have c3x12 : scanNat 3125 34359738337 1272582 2500 31469377436 = .inr 16351969847 := by decide
  have c3x13 : scanNat 3125 34359738337 1272582 2500 16351969847 = .inr 13293661581 := by decide
  have c3x14 : scanNat 3125 34359738337 1272582 2500 13293661581 = .inr 25612066150 := by decide
  have c3x15 : scanNat 3125 34359738337 1272582 2500 25612066150 = .inr 14460843294 := by decide
  have c3x16 : scanNat 3125 34359738337 1272582 2500 14460843294 = .inr 10671220618 := by decide
  have c3x17 : scanNat 3125 34359738337 1272582 2500 10671220618 = .inr 17230144530 := by decide
  have c3x18 : scanNat 3125 34359738337 1272582 2500 17230144530 = .inr 9798860498 := by decide
  have c3x19 : scanNat 3125 34359738337 1272582 2500 9798860498 = .inr 22314073632 := by decide
  have c3x20 : scanNat 3125 34359738337 1272582 2500 22314073632 = .inl (1569, 8872) := by decide
  have c4x1 : scanNat 3125 34359738337 1272582 2500 8872 = .inr 9689685899 := by decide
  have c4x2 : scanNat 3125 34359738337 1272582 2500 9689685899 = .inr 28535764379 := by decide
  have c4x3 : scanNat 3125 34359738337 1272582 2500 28535764379 = .inr 30327137983 := by decide
  have c4x4 : scanNat 3125 34359738337 1272582 2500 30327137983 = .inr 32870269585 := by decide
  have c4x5 : scanNat 3125 34359738337 1272582 2500 32870269585 = .inr 424630064 := by decide
  have c4x6 : scanNat 3125 34359738337 1272582 2500 424630064 = .inr 10070124023 := by decide
  have c4x7 : scanNat 3125 34359738337 1272582 2500 10070124023 = .inr 17942968022 := by decide
  have c4x8 : scanNat 3125 34359738337 1272582 2500 17942968022 = .inl (1960, 561090) := by decide
  have s1 : scanNat 3125 34359738337 1272582 50000 20180809 = .inl (46161, 741768) := by
    rw [show (50000 : Nat) = 47500 + 2500 from rfl,
      scanNat_add_inr _ _ _ _ _ _ _ c1x1,
      show (47500 : Nat) = 45000 + 2500 from rfl,
      scanNat_add_inl _ _ _ _ _ _ _ _ c1x2]

  have s2 : scanNat 3125 34359738337 1272582 50000 741768 = .inl (46399, 889999) := by
    rw [show (50000 : Nat) = 47500 + 2500 from rfl,
      scanNat_add_inr _ _ _ _ _ _ _ c2x1,
      show (47500 : Nat) = 45000 + 2500 from rfl,
      scanNat_add_inl _ _ _ _ _ _ _ _ c2x2]

  have s3 : scanNat 3125 34359738337 1272582 50000 889999 = .inl (1569, 8872) := by
    rw [show (50000 : Nat) = 47500 + 2500 from rfl,
      scanNat_add_inr _ _ _ _ _ _ _ c3x1,
      show (47500 : Nat) = 45000 + 2500 from rfl,
      scanNat_add_inr _ _ _ _ _ _ _ c3x2,
      show (45000 : Nat) = 42500 + 2500 from rfl,
      scanNat_add_inr _ _ _ _ _ _ _ c3x3,
      show (42500 : Nat) = 40000 + 2500 from rfl,
      scanNat_add_inr _ _ _ _ _ _ _ c3x4,
      show (40000 : Nat) = 37500 + 2500 from rfl,
      scanNat_add_inr _ _ _ _ _ _ _ c3x5,
      show (37500 : Nat) = 35000 + 2500 from rfl,
      scanNat_add_inr _ _ _ _ _ _ _ c3x6,
      show (35000 : Nat) = 32500 + 2500 from rfl,
      scanNat_add_inr _ _ _ _ _ _ _ c3x7,
      show (32500 : Nat) = 30000 + 2500 from rfl,
      scanNat_add_inr _ _ _ _ _ _ _ c3x8,
      show (30000 : Nat) = 27500 + 2500 from rfl,
      scanNat_add_inr _ _ _ _ _ _ _ c3x9,
      show (27500 : Nat) = 25000 + 2500 from rfl,
      scanNat_add_inr _ _ _ _ _ _ _ c3x10,
      show (25000 : Nat) = 22500 + 2500 from rfl,
      scanNat_add_inr _ _ _ _ _ _ _ c3x11,
      show (22500 : Nat) = 20000 + 2500 from rfl,
      scanNat_add_inr _ _ _ _ _ _ _ c3x12,
      show (20000 : Nat) = 17500 + 2500 from rfl,
      scanNat_add_inr _ _ _ _ _ _ _ c3x13,
      show (17500 : Nat) = 15000 + 2500 from rfl,
      scanNat_add_inr _ _ _ _ _ _ _ c3x14,
      show (15000 : Nat) = 12500 + 2500 from rfl,
      scanNat_add_inr _ _ _ _ _ _ _ c3x15,
      show (12500 : Nat) = 10000 + 2500 from rfl,
      scanNat_add_inr _ _ _ _ _ _ _ c3x16,
      show (10000 : Nat) = 7500 + 2500 from rfl,
      scanNat_add_inr _ _ _ _ _ _ _ c3x17,
      show (7500 : Nat) = 5000 + 2500 from rfl,
      scanNat_add_inr _ _ _ _ _ _ _ c3x18,
      show (5000 : Nat) = 2500 + 2500 from rfl,
      scanNat_add_inr _ _ _ _ _ _ _ c3x19]
    exact c3x20

  have s4 : scanNat 3125 34359738337 1272582 50000 8872 = .inl (31960, 561090) := by
    rw [show (50000 : Nat) = 47500 + 2500 from rfl,
      scanNat_add_inr _ _ _ _ _ _ _ c4x1,
      show (47500 : Nat) = 45000 + 2500 from rfl,
      scanNat_add_inr _ _ _ _ _ _ _ c4x2,
      show (45000 : Nat) = 42500 + 2500 from rfl,
      scanNat_add_inr _ _ _ _ _ _ _ c4x3,
      show (42500 : Nat) = 40000 + 2500 from rfl,
      scanNat_add_inr _ _ _ _ _ _ _ c4x4,
      show (40000 : Nat) = 37500 + 2500 from rfl,
      scanNat_add_inr _ _ _ _ _ _ _ c4x5,
      show (37500 : Nat) = 35000 + 2500 from rfl,
      scanNat_add_inr _ _ _ _ _ _ _ c4x6,
      show (35000 : Nat) = 32500 + 2500 from rfl,
      scanNat_add_inr _ _ _ _ _ _ _ c4x7,
      show (32500 : Nat) = 30000 + 2500 from rfl,
      scanNat_add_inl _ _ _ _ _ _ _ _ c4x8]

  have n1 : State.next_time 50000
      (State.new 1533812000000 2700 ⟨((3125 : Nat) : Int), ((34359738337 : Nat) : Int), ((20180809 : Nat) : Int)⟩) 1533812000000
      = some (State.new 1533812383900 2700 ⟨((3125 : Nat) : Int), ((34359738337 : Nat) : Int), ((741768 : Nat) : Int)⟩) :=
    next_time_concrete 1533812000000 1533812383900 2700 3125 34359738337 20180809 1272582 50000 46161 741768
      (by decide) s1 (by decide)
  have n2 : State.next_time 50000
      (State.new 1533812383900 2700 ⟨((3125 : Nat) : Int), ((34359738337 : Nat) : Int), ((741768 : Nat) : Int)⟩) 1533812383900
      = some (State.new 1533812744000 2700 ⟨((3125 : Nat) : Int), ((34359738337 : Nat) : Int), ((889999 : Nat) : Int)⟩) :=
    next_time_concrete 1533812383900 1533812744000 2700 3125 34359738337 741768 1272582 50000 46399 889999
      (by decide) s2 (by decide)
  have n3 : State.next_time 50000
      (State.new 1533812744000 2700 ⟨((3125 : Nat) : Int), ((34359738337 : Nat) : Int), ((889999 : Nat) : Int)⟩) 1533812744000
      = some (State.new 1533817587100 2700 ⟨((3125 : Nat) : Int), ((34359738337 : Nat) : Int), ((8872 : Nat) : Int)⟩) :=
    next_time_concrete 1533812744000 1533817587100 2700 3125 34359738337 889999 1272582 50000 1569 8872
      (by decide) s3 (by decide)
  have n4 : State.next_time 50000
      (State.new 1533817587100 2700 ⟨((3125 : Nat) : Int), ((34359738337 : Nat) : Int), ((8872 : Nat) : Int)⟩) 1533817587100
      = some (State.new 1533819391100 2700 ⟨((3125 : Nat) : Int), ((34359738337 : Nat) : Int), ((561090 : Nat) : Int)⟩) :=
    next_time_concrete 1533817587100 1533819391100 2700 3125 34359738337 8872 1272582 50000 31960 561090
      (by decide) s4 (by decide)
  have q0 : State.takeTimes 50000 0 (State.new 1533819391100 2700 ⟨((3125 : Nat) : Int), ((34359738337 : Nat) : Int), ((561090 : Nat) : Int)⟩) = some [] := rfl
  have q1 : State.takeTimes 50000 1 (State.new 1533817587100 2700 ⟨((3125 : Nat) : Int), ((34359738337 : Nat) : Int), ((8872 : Nat) : Int)⟩)
      = some ((State.new 1533819391100 2700 ⟨((3125 : Nat) : Int), ((34359738337 : Nat) : Int), ((561090 : Nat) : Int)⟩).time :: []) :=
    takeTimes_cons 50000 0 (State.new 1533817587100 2700 ⟨((3125 : Nat) : Int), ((34359738337 : Nat) : Int), ((8872 : Nat) : Int)⟩) (State.new 1533819391100 2700 ⟨((3125 : Nat) : Int), ((34359738337 : Nat) : Int), ((561090 : Nat) : Int)⟩) _ n4 q0
  have q2 : State.takeTimes 50000 2 (State.new 1533812744000 2700 ⟨((3125 : Nat) : Int), ((34359738337 : Nat) : Int), ((889999 : Nat) : Int)⟩)
      = some ((State.new 1533817587100 2700 ⟨((3125 : Nat) : Int), ((34359738337 : Nat) : Int), ((8872 : Nat) : Int)⟩).time :: (State.new 1533819391100 2700 ⟨((3125 : Nat) : Int), ((34359738337 : Nat) : Int), ((561090 : Nat) : Int)⟩).time :: []) :=
    takeTimes_cons 50000 1 (State.new 1533812744000 2700 ⟨((3125 : Nat) : Int), ((34359738337 : Nat) : Int), ((889999 : Nat) : Int)⟩) (State.new 1533817587100 2700 ⟨((3125 : Nat) : Int), ((34359738337 : Nat) : Int), ((8872 : Nat) : Int)⟩) _ n3 q1
  have q3 : State.takeTimes 50000 3 (State.new 1533812383900 2700 ⟨((3125 : Nat) : Int), ((34359738337 : Nat) : Int), ((741768 : Nat) : Int)⟩)
      = some ((State.new 1533812744000 2700 ⟨((3125 : Nat) : Int), ((34359738337 : Nat) : Int), ((889999 : Nat) : Int)⟩).time :: (State.new 1533817587100 2700 ⟨((3125 : Nat) : Int), ((34359738337 : Nat) : Int), ((8872 : Nat) : Int)⟩).time :: (State.new 1533819391100 2700 ⟨((3125 : Nat) : Int), ((34359738337 : Nat) : Int), ((561090 : Nat) : Int)⟩).time :: []) :=
    takeTimes_cons 50000 2 (State.new 1533812383900 2700 ⟨((3125 : Nat) : Int), ((34359738337 : Nat) : Int), ((741768 : Nat) : Int)⟩) (State.new 1533812744000 2700 ⟨((3125 : Nat) : Int), ((34359738337 : Nat) : Int), ((889999 : Nat) : Int)⟩) _ n2 q2
  have q4 : State.takeTimes 50000 4 (State.new 1533812000000 2700 ⟨((3125 : Nat) : Int), ((34359738337 : Nat) : Int), ((20180809 : Nat) : Int)⟩)
      = some ((State.new 1533812383900 2700 ⟨((3125 : Nat) : Int), ((34359738337 : Nat) : Int), ((741768 : Nat) : Int)⟩).time :: (State.new 1533812744000 2700 ⟨((3125 : Nat) : Int), ((34359738337 : Nat) : Int), ((889999 : Nat) : Int)⟩).time :: (State.new 1533817587100 2700 ⟨((3125 : Nat) : Int), ((34359738337 : Nat) : Int), ((8872 : Nat) : Int)⟩).time :: (State.new 1533819391100 2700 ⟨((3125 : Nat) : Int), ((34359738337 : Nat) : Int), ((561090 : Nat) : Int)⟩).time :: []) :=
    takeTimes_cons 50000 3 (State.new 1533812000000 2700 ⟨((3125 : Nat) : Int), ((34359738337 : Nat) : Int), ((20180809 : Nat) : Int)⟩) (State.new 1533812383900 2700 ⟨((3125 : Nat) : Int), ((34359738337 : Nat) : Int), ((741768 : Nat) : Int)⟩) _ n1 q3
  rw [State.takeTicks, q4]
  simp only [State.new]
  decide
